import Mathlib

/-!
Verification of the ChemSim atom-model script (src/ChemSim.py).

The development shallowly embeds the two functions of the script:

* `create_atom_model` — the geometry generator.  Its deterministic counting
  logic (shell loop bounds, per-shell electron counts, proton/neutron counts)
  is embedded as computable functions over `Nat`/`Int` (Python integers are
  unbounded, so `Int` models them exactly); its floating-point trigonometry is
  embedded over `ℝ`; its random samples are modelled by an explicit oracle
  argument supplying the sampled values.
* `get_element_info` — the element selector, embedded as a function consuming
  an explicit list of console inputs (the recursive re-prompt becomes
  recursion on the remaining inputs).
-/

/-- Shell indices visited by both electron-shell loops of `create_atom_model`:
Python `range(1, (atomic_number // 2) + 2)`, i.e. the list `[1, …, N/2 + 1]`. -/
def shellIndices (N : Nat) : List Nat :=
  List.range' 1 (N / 2 + 1)

/-- Shell capacity `2 * i ** 2` of shell `i`, as a Python integer. -/
def capInt (i : Nat) : Int :=
  2 * (i : Int) ^ 2

/-- The electron-placement loop of `create_atom_model`, lines 63–75: for each
shell index in the list, place `min(2 * i ** 2, atomic_number - placed)`
electrons, where `placed` is `len(electron_positions)` so far. -/
def electronCountsAux (N : Nat) : List Nat → Int → List Int
  | [], _ => []
  | i :: rest, placed =>
    min (capInt i) ((N : Int) - placed)
      :: electronCountsAux N rest (placed + min (capInt i) ((N : Int) - placed))

/-- Per-shell electron counts produced by `create_atom_model` for atomic
number `N`: the loop runs over `shellIndices N` starting from an empty
`electron_positions` list. -/
def electronCounts (N : Nat) : List Int :=
  electronCountsAux N (shellIndices N) 0

example : electronCounts 1 = [1] := by decide
example : electronCounts 2 = [2, 0] := by decide
example : electronCounts 20 = [2, 8, 10, 0, 0, 0, 0, 0, 0, 0, 0] := by decide

/-- The hardcoded periodic table of `get_element_info`, lines 94–98, as an
association list in source order. -/
def periodicTable : List (String × Nat) :=
  [("H", 1), ("He", 2), ("Li", 3), ("Be", 4), ("B", 5), ("C", 6), ("N", 7),
   ("O", 8), ("F", 9), ("Ne", 10), ("Na", 11), ("Mg", 12), ("Al", 13),
   ("Si", 14), ("P", 15), ("S", 16), ("Cl", 17), ("Ar", 18), ("K", 19),
   ("Ca", 20)]

/-- Dictionary lookup `periodic_table[element]` guarded by
`element in periodic_table` (lines 104–105): the keys are distinct, so an
association-list scan is an exact model of the Python dict. -/
def lookupElement (s : String) : Option Nat :=
  (periodicTable.find? (fun p => p.1 == s)).map (fun p => p.2)

/-- Python `str.capitalize()` on the console input (line 102): the first
character is uppercased and every later character is lowercased. -/
def capitalize (s : String) : String :=
  match s.data with
  | [] => ""
  | c :: rest => String.mk (c.toUpper :: rest.map Char.toLower)

/-- All letter-case variants of a list of characters: each character may
appear in its lowercase or its uppercase form. -/
def caseVariantsList : List Char → List (List Char)
  | [] => [[]]
  | c :: rest =>
    let tails := caseVariantsList rest
    tails.map (fun t => c.toLower :: t) ++ tails.map (fun t => c.toUpper :: t)

/-- All letter-case variants of a string, e.g. the variants of `"He"` are
`"he"`, `"hE"`, `"He"` and `"HE"`. -/
def caseVariants (s : String) : List String :=
  (caseVariantsList s.data).map String.mk

/-- The element selector `get_element_info` (lines 92–108), run against an
explicit stream of console inputs: each input is capitalized and looked up;
on a hit the pair (normalized symbol, atomic number) is returned, otherwise
the function recurses on the remaining inputs (the re-prompt).  `none` means
every supplied input was invalid and the script is still re-prompting. -/
def getElementInfo : List String → Option (String × Nat)
  | [] => none
  | s :: rest =>
    let e := capitalize s
    match lookupElement e with
    | some n => some (e, n)
    | none => getElementInfo rest

example : capitalize "h" = "H" := by decide
example : capitalize "hE" = "He" := by decide
example : getElementInfo ["h"] = some ("H", 1) := by decide
example : getElementInfo ["xx", "ca"] = some ("Ca", 20) := by decide
example : caseVariants "He" = ["he", "hE", "He", "HE"] := by decide

/-- Proton count of the particle scatter: `num_protons = atomic_number`
(line 51). -/
def numProtons (N : Nat) : Nat := N

/-- Neutron count of the particle scatter: `num_neutrons = atomic_number`
(line 52, the simplified stability assumption). -/
def numNeutrons (N : Nat) : Nat := N

/-- Total nucleus particle count `num_particles = num_protons + num_neutrons`
(line 53). -/
def numParticles (N : Nat) : Nat := numProtons N + numNeutrons N

/-- Number of wireframe shells drawn by the loop on line 28:
the length of `range(1, (atomic_number // 2) + 2)`. -/
def numShellsDrawn (N : Nat) : Nat := (shellIndices N).length

noncomputable section

/-- Sample `j` of `np.linspace(a, b, n)`: `a + (b - a) * j / (n - 1)`. -/
def linspace (a b : ℝ) (n j : Nat) : ℝ :=
  a + (b - a) * (j : ℝ) / ((n : ℝ) - 1)

/-- Entry `(j, k)` of the nucleus-surface mesh `x` (line 22):
`0.1 * np.outer(np.cos(u), np.sin(v))` with `u = linspace(0, 2π, 100)` and
`v = linspace(0, π, 100)`. -/
def nucleusMeshX (j k : Nat) : ℝ :=
  0.1 * (Real.cos (linspace 0 (2 * Real.pi) 100 j) *
    Real.sin (linspace 0 Real.pi 100 k))

/-- Entry `(j, k)` of the nucleus-surface mesh `y` (line 23). -/
def nucleusMeshY (j k : Nat) : ℝ :=
  0.1 * (Real.sin (linspace 0 (2 * Real.pi) 100 j) *
    Real.sin (linspace 0 Real.pi 100 k))

/-- Entry `(j, k)` of the nucleus-surface mesh `z` (line 24):
`0.1 * np.outer(np.ones(100), np.cos(v))`, independent of `u`. -/
def nucleusMeshZ (j k : Nat) : ℝ :=
  0.1 * (1 * Real.cos (linspace 0 Real.pi 100 k))

/-- Entry `(j, k)` of the shell-`i` wireframe `x_shell` (line 31):
`i * 0.3 * np.outer(np.sin(theta), np.cos(phi))` with
`phi = linspace(0, 2π, 100)` and `theta = linspace(0, π, 100)`. -/
def shellMeshX (i j k : Nat) : ℝ :=
  (i : ℝ) * 0.3 * (Real.sin (linspace 0 Real.pi 100 j) *
    Real.cos (linspace 0 (2 * Real.pi) 100 k))

/-- Entry `(j, k)` of the shell-`i` wireframe `y_shell` (line 32). -/
def shellMeshY (i j k : Nat) : ℝ :=
  (i : ℝ) * 0.3 * (Real.sin (linspace 0 Real.pi 100 j) *
    Real.sin (linspace 0 (2 * Real.pi) 100 k))

/-- Entry `(j, k)` of the shell-`i` wireframe `z_shell` (line 33):
`i * 0.3 * np.outer(np.cos(theta), np.ones_like(phi))`, independent of
`phi`. -/
def shellMeshZ (i j k : Nat) : ℝ :=
  (i : ℝ) * 0.3 * (Real.cos (linspace 0 Real.pi 100 j) * 1)

/-- The nucleus scatter coordinates (lines 55–57): `num_particles`
independent Gaussian 3D samples, supplied here by the random oracle `g`
(sample index ↦ sampled coordinate triple). -/
def nucleusScatter (g : Nat → ℝ × ℝ × ℝ) (N : Nat) : List (ℝ × ℝ × ℝ) :=
  (List.range (numParticles N)).map g

/-- The points plotted as protons (line 59): the first `num_protons` nucleus
samples. -/
def protonPoints (g : Nat → ℝ × ℝ × ℝ) (N : Nat) : List (ℝ × ℝ × ℝ) :=
  (nucleusScatter g N).take (numProtons N)

/-- The points plotted as neutrons (line 60): the nucleus samples after the
first `num_protons`. -/
def neutronPoints (g : Nat → ℝ × ℝ × ℝ) (N : Nat) : List (ℝ × ℝ × ℝ) :=
  (nucleusScatter g N).drop (numProtons N)

/-- One electron position of shell `i` (lines 68–72): radius `r = i * 0.3`,
spherical angles `phi` and `theta` converted to Cartesian coordinates. -/
def electronPoint (i : Nat) (phi theta : ℝ) : ℝ × ℝ × ℝ :=
  ((i : ℝ) * 0.3 * Real.sin theta * Real.cos phi,
   (i : ℝ) * 0.3 * Real.sin theta * Real.sin phi,
   (i : ℝ) * 0.3 * Real.cos theta)

/-- The electron scatter (lines 63–75): one list of points per shell, the
shell-`i` list holding `num_electrons_in_shell` points whose angles come from
the random oracle `g` (shell index, sample index ↦ (phi, theta)). -/
def electronShellPoints (g : Nat → Nat → ℝ × ℝ) (N : Nat) :
    List (List (ℝ × ℝ × ℝ)) :=
  (List.zip (shellIndices N) (electronCounts N)).map
    (fun ic => (List.range ic.2.toNat).map
      (fun j => electronPoint ic.1 (g ic.1 j).1 (g ic.1 j).2))

end

lemma capInt_nonneg (i : Nat) : 0 ≤ capInt i := by
  unfold capInt
  positivity

lemma capSum_nonneg (l : List Nat) : 0 ≤ (l.map capInt).sum := by
  induction l with
  | nil => simp
  | cons i rest ih =>
    simp only [List.map_cons, List.sum_cons]
    have h := capInt_nonneg i
    omega

lemma electronCountsAux_sum (N : Nat) (l : List Nat) (placed : Int)
    (h0 : 0 ≤ placed) (h1 : placed ≤ (N : Int)) :
    (electronCountsAux N l placed).sum
      = min ((l.map capInt).sum) ((N : Int) - placed) := by
  induction l generalizing placed with
  | nil =>
    simp only [electronCountsAux, List.sum_nil, List.map_nil]
    omega
  | cons i rest ih =>
    have hc := capInt_nonneg i
    have hr := capSum_nonneg rest
    simp only [electronCountsAux, List.sum_cons, List.map_cons]
    rw [ih (placed + min (capInt i) ((N : Int) - placed)) (by omega) (by omega)]
    omega

lemma electronCountsAux_length (N : Nat) (l : List Nat) (placed : Int) :
    (electronCountsAux N l placed).length = l.length := by
  induction l generalizing placed with
  | nil => rfl
  | cons i rest ih =>
    simp only [electronCountsAux, List.length_cons]
    rw [ih]

lemma electronCountsAux_nonneg (N : Nat) (l : List Nat) (placed : Int)
    (h0 : 0 ≤ placed) (h1 : placed ≤ (N : Int)) :
    ∀ c ∈ electronCountsAux N l placed, 0 ≤ c := by
  induction l generalizing placed with
  | nil => simp [electronCountsAux]
  | cons i rest ih =>
    have hc := capInt_nonneg i
    intro c hc2
    simp only [electronCountsAux, List.mem_cons] at hc2
    rcases hc2 with rfl | hc2
    · omega
    · exact ih (placed + min (capInt i) ((N : Int) - placed)) (by omega) (by omega) c hc2

lemma electronCountsAux_getD (N : Nat) (l : List Nat) (placed : Int) (k : Nat)
    (hk : k < l.length) :
    (electronCountsAux N l placed).getD k 0
      = min (capInt (l.getD k 0))
          ((N : Int) - (placed + ((electronCountsAux N l placed).take k).sum)) := by
  induction l generalizing placed k with
  | nil => simp at hk
  | cons i rest ih =>
    cases k with
    | zero =>
      simp [electronCountsAux]
    | succ k =>
      simp only [electronCountsAux, List.getD_cons_succ, List.take_succ_cons,
        List.sum_cons]
      rw [ih (placed + min (capInt i) ((N : Int) - placed)) k
        (by simpa using hk)]
      omega

lemma electronCounts_sum (N : Nat) :
    (electronCounts N).sum = min (((shellIndices N).map capInt).sum) (N : Int) := by
  unfold electronCounts
  rw [electronCountsAux_sum N _ 0 le_rfl (by positivity)]
  simp

lemma electronCounts_length (N : Nat) :
    (electronCounts N).length = N / 2 + 1 := by
  unfold electronCounts shellIndices
  rw [electronCountsAux_length]
  simp

lemma electronCounts_nonneg (N : Nat) : ∀ c ∈ electronCounts N, 0 ≤ c :=
  electronCountsAux_nonneg N (shellIndices N) 0 le_rfl (by positivity)

lemma mem_shellIndices (N i : Nat) : i ∈ shellIndices N ↔ 1 ≤ i ∧ i ≤ N / 2 + 1 := by
  unfold shellIndices
  rw [List.mem_range'_1]
  omega

lemma shellIndices_getD (N k : Nat) (hk : k < N / 2 + 1) :
    (shellIndices N).getD k 0 = k + 1 := by
  unfold shellIndices
  rw [List.getD_eq_getElem _ _ (by simpa using hk)]
  rw [List.getElem_range']
  omega

lemma capInt_last_ge (N : Nat) : (N : Int) ≤ capInt (N / 2 + 1) := by
  unfold capInt
  have h1 : N ≤ 2 * (N / 2 + 1) := by omega
  have h2 : N / 2 + 1 ≤ (N / 2 + 1) ^ 2 := Nat.le_self_pow (by norm_num) _
  have h3 : N ≤ 2 * (N / 2 + 1) ^ 2 := by omega
  exact_mod_cast h3

lemma shellCapacity_ge (N : Nat) :
    (N : Int) ≤ ((shellIndices N).map capInt).sum := by
  have hm : N / 2 + 1 ∈ shellIndices N := by
    rw [mem_shellIndices]
    omega
  have hle : capInt (N / 2 + 1) ≤ ((shellIndices N).map capInt).sum := by
    refine List.single_le_sum (fun x hx => ?_) _ (List.mem_map_of_mem capInt hm)
    obtain ⟨i, _, rfl⟩ := List.mem_map.mp hx
    exact capInt_nonneg i
  exact le_trans (capInt_last_ge N) hle

lemma sum_zero_of_nonneg (l : List Int) (h0 : ∀ c ∈ l, 0 ≤ c)
    (h : l.sum ≤ 0) : ∀ c ∈ l, c = 0 := by
  induction l with
  | nil => simp
  | cons a rest ih =>
    simp only [List.sum_cons] at h
    have ha := h0 a (List.mem_cons_self a rest)
    have hrest : 0 ≤ rest.sum :=
      List.sum_nonneg (fun x hx => h0 x (List.mem_cons_of_mem a hx))
    intro c hc
    rcases List.mem_cons.mp hc with rfl | hc
    · omega
    · exact ih (fun x hx => h0 x (List.mem_cons_of_mem a hx)) (by omega) c hc

/-- C1: for every atomic number N ≥ 1, the electron-scatter loop visits shell
indices 1 .. N/2 + 1 inclusive, shell k+1 (position k of the list) receives
min(2·(k+1)², N − electrons already placed) electrons, the total never
exceeds N, and the concrete values for N = 1, 2, 20 are [1], [2, 0] and
[2, 8, 10, 0, …, 0] (shell 1 only for helium, shells 1–3 for calcium, zero in
every later shell). -/
theorem electron_scatter_shell_counts (N : Nat) (h : 1 ≤ N) :
    (∀ i : Nat, i ∈ shellIndices N ↔ 1 ≤ i ∧ i ≤ N / 2 + 1) ∧
    (∀ k : Nat, k < (electronCounts N).length →
      (electronCounts N).getD k 0
        = min (capInt (k + 1)) ((N : Int) - ((electronCounts N).take k).sum)) ∧
    (electronCounts N).sum ≤ (N : Int) ∧
    electronCounts 1 = [1] ∧ electronCounts 2 = [2, 0] ∧
    electronCounts 20 = [2, 8, 10, 0, 0, 0, 0, 0, 0, 0, 0] := by
  refine ⟨mem_shellIndices N, fun k hk => ?_, ?_, by decide, by decide, by decide⟩
  · have hk2 : k < N / 2 + 1 := by rwa [electronCounts_length] at hk
    have hg := electronCountsAux_getD N (shellIndices N) 0 k
      (by simpa [shellIndices] using hk2)
    rw [show electronCountsAux N (shellIndices N) 0 = electronCounts N from rfl]
      at hg
    rw [hg, shellIndices_getD N k hk2, zero_add]
  · rw [electronCounts_sum]
    omega

/-- Witness for C1 at N = 20. -/
theorem electron_scatter_shell_counts_witness :
    1 ≤ 20 ∧
    ((∀ i : Nat, i ∈ shellIndices 20 ↔ 1 ≤ i ∧ i ≤ 20 / 2 + 1) ∧
     (∀ k : Nat, k < (electronCounts 20).length →
       (electronCounts 20).getD k 0
         = min (capInt (k + 1)) ((20 : Int) - ((electronCounts 20).take k).sum)) ∧
     (electronCounts 20).sum ≤ (20 : Int) ∧
     electronCounts 1 = [1] ∧ electronCounts 2 = [2, 0] ∧
     electronCounts 20 = [2, 8, 10, 0, 0, 0, 0, 0, 0, 0, 0]) :=
  ⟨by decide, electron_scatter_shell_counts 20 (by decide)⟩

/-- C9: for every atomic number N ≥ 1 the total number of placed electrons is
exactly N — the cumulative shell capacity up to shell N/2 + 1 always covers N,
so no electron is lost to truncation at the last shell. -/
theorem electron_total_eq_atomic_number (N : Nat) (h : 1 ≤ N) :
    (electronCounts N).sum = (N : Int) := by
  rw [electronCounts_sum]
  have := shellCapacity_ge N
  omega

/-- Witness for C9 at N = 20. -/
theorem electron_total_eq_atomic_number_witness :
    1 ≤ 20 ∧ (electronCounts 20).sum = (20 : Int) :=
  ⟨by decide, electron_total_eq_atomic_number 20 (by decide)⟩

/-- C10: at every point of the electron-placement loop the number of placed
electrons (the sum of any prefix of per-shell counts) lies between 0 and N,
every per-shell count is nonnegative, and once the budget N is exhausted every
later shell receives exactly 0 electrons. -/
theorem electron_placement_invariant (N k : Nat) :
    (0 ≤ ((electronCounts N).take k).sum ∧
      ((electronCounts N).take k).sum ≤ (N : Int)) ∧
    (∀ c ∈ electronCounts N, 0 ≤ c) ∧
    (((electronCounts N).take k).sum = (N : Int) →
      ∀ c ∈ (electronCounts N).drop k, c = 0) := by
  have hnn := electronCounts_nonneg N
  have hsplit : ((electronCounts N).take k).sum + ((electronCounts N).drop k).sum
      = (electronCounts N).sum := by
    rw [← List.sum_append, List.take_append_drop]
  have htot : (electronCounts N).sum ≤ (N : Int) := by
    rw [electronCounts_sum]
    omega
  have htk : 0 ≤ ((electronCounts N).take k).sum :=
    List.sum_nonneg (fun x hx => hnn x (List.take_subset k _ hx))
  have hdk : 0 ≤ ((electronCounts N).drop k).sum :=
    List.sum_nonneg (fun x hx => hnn x (List.drop_subset k _ hx))
  refine ⟨⟨htk, by omega⟩, hnn, fun hfull => ?_⟩
  exact sum_zero_of_nonneg _ (fun c hc => hnn c (List.drop_subset k _ hc))
    (by omega)

/-- Witness for C10 at N = 20, prefix length 3 (the point where the budget is
exhausted). -/
theorem electron_placement_invariant_witness :
    (0 ≤ ((electronCounts 20).take 3).sum ∧
      ((electronCounts 20).take 3).sum ≤ (20 : Int)) ∧
    (∀ c ∈ electronCounts 20, 0 ≤ c) ∧
    (((electronCounts 20).take 3).sum = (20 : Int) →
      ∀ c ∈ (electronCounts 20).drop 3, c = 0) :=
  electron_placement_invariant 20 3

/-- C3: for every entry of the hardcoded periodic table, entering its symbol
in any letter case normalizes it to capitalize-first-letter form and the
selector returns the pair (normalized symbol, exact stored atomic number). -/
theorem element_lookup_case_insensitive (p : String × Nat)
    (hp : p ∈ periodicTable) (s : String) (hs : s ∈ caseVariants p.1) :
    capitalize s = p.1 ∧ lookupElement (capitalize s) = some p.2 ∧
    getElementInfo [s] = some (p.1, p.2) := by
  revert s
  revert p
  decide

/-- Witness for C3: the case variant "hE" of the key "He". -/
theorem element_lookup_case_insensitive_witness :
    ("He", 2) ∈ periodicTable ∧ "hE" ∈ caseVariants "He" ∧
    (capitalize "hE" = "He" ∧ lookupElement (capitalize "hE") = some 2 ∧
     getElementInfo ["hE"] = some ("He", 2)) :=
  ⟨by decide, by decide,
    element_lookup_case_insensitive ("He", 2) (by decide) "hE" (by decide)⟩

lemma getElementInfo_mem (l : List String) (e : String) (n : Nat)
    (h : getElementInfo l = some (e, n)) :
    ∃ t ∈ l, capitalize t = e ∧ lookupElement e = some n := by
  induction l with
  | nil => simp [getElementInfo] at h
  | cons s rest ih =>
    rcases hl : lookupElement (capitalize s) with _ | m
    · rw [getElementInfo, hl] at h
      obtain ⟨t, ht, he⟩ := ih h
      exact ⟨t, List.mem_cons_of_mem s ht, he⟩
    · rw [getElementInfo, hl] at h
      obtain ⟨he, hn⟩ : capitalize s = e ∧ m = n := by
        constructor <;> simp_all
      exact ⟨s, List.mem_cons_self s rest, he, by rw [← he, hl, hn]⟩

/-- C4: an input whose capitalized form is not a table key is never returned:
the selector recurses on the remaining inputs, and any value it eventually
returns comes from a later input that is a valid symbol. -/
theorem invalid_input_retries (s : String) (rest : List String)
    (h : lookupElement (capitalize s) = none) :
    getElementInfo (s :: rest) = getElementInfo rest ∧
    (∀ e n, getElementInfo (s :: rest) = some (e, n) →
      ∃ t ∈ rest, capitalize t = e ∧ lookupElement e = some n) := by
  have h1 : getElementInfo (s :: rest) = getElementInfo rest := by
    rw [getElementInfo, h]
  exact ⟨h1, fun e n he => getElementInfo_mem rest e n (h1 ▸ he)⟩

/-- Witness for C4: the invalid input "xx" followed by the valid input "h". -/
theorem invalid_input_retries_witness :
    lookupElement (capitalize "xx") = none ∧
    (getElementInfo ["xx", "h"] = getElementInfo ["h"] ∧
     (∀ e n, getElementInfo ["xx", "h"] = some (e, n) →
       ∃ t ∈ ["h"], capitalize t = e ∧ lookupElement e = some n)) :=
  ⟨by decide, invalid_input_retries "xx" ["h"] (by decide)⟩

/-- C5 counterexample: for atomic number 1 the shell loop is
range(1, 1 // 2 + 2) = range(1, 2), a single iteration, so exactly one
wireframe shell is drawn — not two as the claim states. -/
theorem h_scenario_two_shells_false : ¬ numShellsDrawn 1 = 2 := by
  decide

/-- C5 amended: entering "h" normalizes to "H" with atomic number 1, and the
renderer then uses 1 proton, 1 neutron, 1 electron in shell 1, and draws
exactly 1 shell (loop bound 1 // 2 + 2 = 2, so i runs from 1 to 1
inclusive). -/
theorem h_end_to_end_scenario :
    capitalize "h" = "H" ∧ getElementInfo ["h"] = some ("H", 1) ∧
    numProtons 1 = 1 ∧ numNeutrons 1 = 1 ∧ numParticles 1 = 2 ∧
    electronCounts 1 = [1] ∧ shellIndices 1 = [1] ∧
    numShellsDrawn 1 = 1 := by
  decide

/-- C2: for every atomic number N ≥ 1 and random oracle, the particle scatter
generates 2N nucleus samples, the first N of which are plotted as protons and
the remaining N as neutrons. -/
theorem nucleus_scatter_counts (g : Nat → ℝ × ℝ × ℝ) (N : Nat) (h : 1 ≤ N) :
    (nucleusScatter g N).length = 2 * N ∧
    (protonPoints g N).length = N ∧
    (neutronPoints g N).length = N ∧
    protonPoints g N = (nucleusScatter g N).take N ∧
    neutronPoints g N = (nucleusScatter g N).drop N := by
  refine ⟨?_, ?_, ?_, rfl, rfl⟩ <;>
    simp [nucleusScatter, protonPoints, neutronPoints, numParticles,
      numProtons, numNeutrons] <;>
    omega

/-- Witness for C2 at N = 1 with a constant random oracle. -/
theorem nucleus_scatter_counts_witness :
    1 ≤ 1 ∧
    ((nucleusScatter (fun _ => ((0 : ℝ), (0 : ℝ), (0 : ℝ))) 1).length = 2 * 1 ∧
     (protonPoints (fun _ => ((0 : ℝ), (0 : ℝ), (0 : ℝ))) 1).length = 1 ∧
     (neutronPoints (fun _ => ((0 : ℝ), (0 : ℝ), (0 : ℝ))) 1).length = 1 ∧
     protonPoints (fun _ => ((0 : ℝ), (0 : ℝ), (0 : ℝ))) 1
       = (nucleusScatter (fun _ => ((0 : ℝ), (0 : ℝ), (0 : ℝ))) 1).take 1 ∧
     neutronPoints (fun _ => ((0 : ℝ), (0 : ℝ), (0 : ℝ))) 1
       = (nucleusScatter (fun _ => ((0 : ℝ), (0 : ℝ), (0 : ℝ))) 1).drop 1) :=
  ⟨by decide,
    nucleus_scatter_counts (fun _ => ((0 : ℝ), (0 : ℝ), (0 : ℝ))) 1 (by decide)⟩

lemma electronShellPoints_lengths (e : Nat → Nat → ℝ × ℝ) (N : Nat) :
    (electronShellPoints e N).map List.length
      = (List.zip (shellIndices N) (electronCounts N)).map
          (fun ic => ic.2.toNat) := by
  unfold electronShellPoints
  simp [List.map_map, Function.comp]

/-- C8: the proton, neutron and per-shell electron counts produced by the
generator depend only on the atomic number: two runs with different random
oracles (different sampled coordinates and angles) produce identical counts. -/
theorem generator_counts_deterministic (g g' : Nat → ℝ × ℝ × ℝ)
    (e e' : Nat → Nat → ℝ × ℝ) (N : Nat) :
    (protonPoints g N).length = (protonPoints g' N).length ∧
    (neutronPoints g N).length = (neutronPoints g' N).length ∧
    (electronShellPoints e N).map List.length
      = (electronShellPoints e' N).map List.length := by
  refine ⟨?_, ?_, ?_⟩
  · simp [protonPoints, nucleusScatter]
  · simp [neutronPoints, nucleusScatter]
  · rw [electronShellPoints_lengths, electronShellPoints_lengths]

/-- Witness for C8 at N = 5 with two visibly different pairs of oracles. -/
theorem generator_counts_deterministic_witness :
    (protonPoints (fun _ => ((0 : ℝ), (0 : ℝ), (0 : ℝ))) 5).length
      = (protonPoints (fun _ => ((1 : ℝ), (2 : ℝ), (3 : ℝ))) 5).length ∧
    (neutronPoints (fun _ => ((0 : ℝ), (0 : ℝ), (0 : ℝ))) 5).length
      = (neutronPoints (fun _ => ((1 : ℝ), (2 : ℝ), (3 : ℝ))) 5).length ∧
    (electronShellPoints (fun _ _ => ((0 : ℝ), (0 : ℝ))) 5).map List.length
      = (electronShellPoints (fun _ _ => ((1 : ℝ), (2 : ℝ))) 5).map List.length :=
  generator_counts_deterministic (fun _ => ((0 : ℝ), (0 : ℝ), (0 : ℝ)))
    (fun _ => ((1 : ℝ), (2 : ℝ), (3 : ℝ))) (fun _ _ => ((0 : ℝ), (0 : ℝ)))
    (fun _ _ => ((1 : ℝ), (2 : ℝ))) 5

/-- C6: every point of the 100 × 100 nucleus surface mesh lies exactly on the
sphere of radius 0.1 about the origin. -/
theorem nucleus_surface_on_sphere (j k : Nat) (hj : j < 100) (hk : k < 100) :
    nucleusMeshX j k ^ 2 + nucleusMeshY j k ^ 2 + nucleusMeshZ j k ^ 2
      = (0.1 : ℝ) ^ 2 := by
  unfold nucleusMeshX nucleusMeshY nucleusMeshZ
  have hu := Real.sin_sq_add_cos_sq (linspace 0 (2 * Real.pi) 100 j)
  have hv := Real.sin_sq_add_cos_sq (linspace 0 Real.pi 100 k)
  nlinarith [hu, hv]

/-- Witness for C6 at grid indices (0, 0). -/
theorem nucleus_surface_on_sphere_witness :
    (0 < 100 ∧ 0 < 100) ∧
    nucleusMeshX 0 0 ^ 2 + nucleusMeshY 0 0 ^ 2 + nucleusMeshZ 0 0 ^ 2
      = (0.1 : ℝ) ^ 2 :=
  ⟨⟨by decide, by decide⟩, nucleus_surface_on_sphere 0 0 (by decide) (by decide)⟩

/-- C7: for every atomic number N ≥ 1 the wireframe shells are drawn for
shell indices 1 .. N/2 + 1 inclusive, and every point of shell i's 100 × 100
wireframe lies exactly on the sphere of radius 0.3·i. -/
theorem shell_wireframes_on_sphere (N i j k : Nat) (hN : 1 ≤ N)
    (hi : i ∈ shellIndices N) (hj : j < 100) (hk : k < 100) :
    (i ∈ shellIndices N ↔ 1 ≤ i ∧ i ≤ N / 2 + 1) ∧
    shellMeshX i j k ^ 2 + shellMeshY i j k ^ 2 + shellMeshZ i j k ^ 2
      = (0.3 * (i : ℝ)) ^ 2 := by
  refine ⟨mem_shellIndices N i, ?_⟩
  unfold shellMeshX shellMeshY shellMeshZ
  have ht := Real.sin_sq_add_cos_sq (linspace 0 Real.pi 100 j)
  have hp := Real.sin_sq_add_cos_sq (linspace 0 (2 * Real.pi) 100 k)
  linear_combination
    ((0.3 * (i : ℝ)) ^ 2 * Real.sin (linspace 0 Real.pi 100 j) ^ 2) * hp +
      (0.3 * (i : ℝ)) ^ 2 * ht

/-- Witness for C7 at N = 1, shell 1, grid indices (0, 0). -/
theorem shell_wireframes_on_sphere_witness :
    (1 ≤ 1 ∧ 1 ∈ shellIndices 1 ∧ 0 < 100 ∧ 0 < 100) ∧
    ((1 ∈ shellIndices 1 ↔ 1 ≤ 1 ∧ 1 ≤ 1 / 2 + 1) ∧
     shellMeshX 1 0 0 ^ 2 + shellMeshY 1 0 0 ^ 2 + shellMeshZ 1 0 0 ^ 2
       = (0.3 * ((1 : Nat) : ℝ)) ^ 2) :=
  ⟨⟨by decide, by decide, by decide, by decide⟩,
    shell_wireframes_on_sphere 1 1 0 0 (by decide) (by decide) (by decide)
      (by decide)⟩
